import Mathlib

/-!
Shallow embedding of `mlir/lib/Dialect/MemRef/Transforms/EmulateNarrowType.cpp`.

The pass rewrites memref operations on narrow (sub-addressable-width) integer
elements into operations on containers of the addressable width.  Integer
values of width `w` are modelled as natural numbers `< 2^w`; `arith` bitwise
operations become `Nat` bitwise operations with an explicit `% 2^w` where the
hardware would truncate.  `int64_t` quantities that may carry the
`ShapedType::kDynamic` sentinel are modelled by the sum type `IV`; plain
`int64_t` arithmetic uses `Int` with C-style truncated division
(`Int.tdiv` / `Int.tmod`).
-/

namespace EmulateNarrowType

/-- Value of MLIR integer type: a bit pattern `val` together with its bit
width, as produced by `arith.index_cast` to `IntegerType(width)`. -/
structure IntVal where
  width : Nat
  val : Nat
deriving DecidableEq

/-- Embedding of `getOffsetForBitwidth` (EmulateNarrowType.cpp, lines 41-57):
with `scaleFactor = targetBits / sourceBits`, the affine expression is
`(scaleFactor - 1 - srcIdx % scaleFactor) * sourceBits` when `rightOffset`
holds and `(srcIdx % scaleFactor) * sourceBits` otherwise; the result is
materialized as a value of integer type `targetBits` (`arith.index_cast`).
Indices are non-negative, and affine `mod`/`floordiv` on non-negative
operands agree with `Nat` operations. -/
def getOffsetForBitwidth (srcIdx sourceBits targetBits : Nat)
    (rightOffset : Bool := false) : IntVal :=
  let scaleFactor : Nat := targetBits / sourceBits
  let offsetExpr : Nat :=
    if rightOffset then (scaleFactor - 1 - srcIdx % scaleFactor) * sourceBits
    else (srcIdx % scaleFactor) * sourceBits
  ⟨targetBits, offsetExpr⟩

/-- Embedding of `getAtomicWriteMask` (lines 63-80): the constant
`(1 << srcBits) - 1` of width `dstBits`, shifted left by `bitwidthOffset`
(`arith.shli`, truncating at `dstBits` bits), then `arith.xori` with the
all-ones constant `-1` of width `dstBits`. -/
def getAtomicWriteMask (srcBits dstBits bitwidthOffset : Nat) : Nat :=
  let maskRightAligned : Nat := ((1 <<< srcBits) - 1) % 2 ^ dstBits
  let writeMaskInverse : Nat := (maskRightAligned <<< bitwidthOffset) % 2 ^ dstBits
  let flipVal : Nat := 2 ^ dstBits - 1
  writeMaskInverse ^^^ flipVal

/-- Embedding of `getIndicesForLoadOrStore` (lines 85-94): rescale a linear
index at `srcBits` granularity to `dstBits` granularity by affine
`floordiv` with `scaler = dstBits / srcBits`. -/
def getIndicesForLoadOrStore (linearizedIndex srcBits dstBits : Nat) : Nat :=
  let scaler : Nat := dstBits / srcBits
  linearizedIndex / scaler

/-- Semantics of `arith.shrsi` on a `w`-bit value: shift right by `amt`,
filling the vacated high bits with copies of the sign bit (bit `w - 1`). -/
def shrsi (w v amt : Nat) : Nat :=
  if v.testBit (w - 1) then (v >>> amt) + (2 ^ w - 2 ^ (w - amt))
  else v >>> amt

/-- Shift amount of the rewritten load (`ConvertMemRefLoad::matchAndRewrite`,
lines 233-234): `getOffsetForBitwidth` is called without the trailing
argument, i.e. with `rightOffset = false`. -/
def loadBitwidthOffset (lin srcBits dstBits : Nat) : Nat :=
  (getOffsetForBitwidth lin srcBits dstBits).val

/-- Value `bitsLoad` of the rewritten load (line 235): `arith.shrsi` of the
loaded container `c` by `loadBitwidthOffset`. -/
def loadBitsLoad (lin srcBits dstBits c : Nat) : Nat :=
  shrsi dstBits c (loadBitwidthOffset lin srcBits dstBits)

/-- Result of the rewritten load when the converted result type equals the
container element type (lines 245-250): `arith.andi` of `bitsLoad` with the
constant `(1 << srcBits) - 1` of container width. -/
def loadResultMasked (lin srcBits dstBits c : Nat) : Nat :=
  loadBitsLoad lin srcBits dstBits c &&& (((1 <<< srcBits) - 1) % 2 ^ dstBits)

/-- Result of the rewritten load when the converted result type is a
narrower integer of width `resultBits` (line 252): `arith.trunci` of
`bitsLoad`. -/
def loadResultTrunc (lin srcBits dstBits resultBits c : Nat) : Nat :=
  loadBitsLoad lin srcBits dstBits c % 2 ^ resultBits

/-- Offset used by the rewritten store (`ConvertMemrefStore::matchAndRewrite`,
lines 381-382): `getOffsetForBitwidth` with `rightOffset = true`. -/
def storeBitwidthOffset (lin srcBits dstBits : Nat) : Nat :=
  (getOffsetForBitwidth lin srcBits dstBits true).val

/-- Clear mask of the rewritten store (lines 383-384). -/
def storeWriteMask (lin srcBits dstBits : Nat) : Nat :=
  getAtomicWriteMask srcBits dstBits (storeBitwidthOffset lin srcBits dstBits)

/-- Aligned value of the rewritten store (lines 386-388): the stored value
`v` (zero-extended to container width by `arith.extui`, hence `v < 2^srcBits`
is preserved as the numeric value) shifted left by `storeBitwidthOffset`. -/
def storeAlignedVal (lin srcBits dstBits v : Nat) : Nat :=
  (v <<< storeBitwidthOffset lin srcBits dstBits) % 2 ^ dstBits

/-- Container contents after the rewritten store's two atomic
read-modify-writes (lines 391-397): `atomic andi` with the write mask, then
`atomic ori` with the aligned value. -/
def storeNewContainer (lin srcBits dstBits c v : Nat) : Nat :=
  (c &&& storeWriteMask lin srcBits dstBits) |||
    storeAlignedVal lin srcBits dstBits v

/-- Model of an `int64_t` quantity that may be the `ShapedType::kDynamic`
sentinel: either dynamic or a concrete value. -/
inductive IV where
  | dyn : IV
  | v : Int → IV
deriving DecidableEq

/-- Signedness of an MLIR `IntegerType`. -/
inductive Signedness where
  | signless
  | signed
  | unsigned
deriving DecidableEq

/-- Element type of a memref: an integer type (bit width plus signedness) or
some non-integer type, abstracted to its `getIntOrFloatBitWidth` and an
opaque identifier. -/
inductive ElemTy where
  | int : Nat → Signedness → ElemTy
  | nonInt : Nat → Nat → ElemTy
deriving DecidableEq

/-- Result of `getIntOrFloatBitWidth` on an element type. -/
def elemWidth : ElemTy → Nat
  | .int w _ => w
  | .nonInt w _ => w

/-- Layout of a memref type: the identity (no layout annotation), an explicit
strided layout `strided<strides, offset>`, or some other layout for which
`getStridesAndOffset` fails. -/
inductive Layout where
  | identity : Layout
  | strided : IV → List IV → Layout
  | other : Layout
deriving DecidableEq

/-- Model of an MLIR `MemRefType`: element type, shape (each dimension static
or dynamic), layout, and an opaque memory-space tag. -/
structure MemRefTy where
  elem : ElemTy
  shape : List IV
  layout : Layout
  memSpace : Nat
deriving DecidableEq

/-- Suffix products of a shape, i.e. the canonical strides of an identity
layout: stride `i` is the product of dimensions `i+1, ...`; a dynamic
dimension in that product makes the stride dynamic.  The innermost stride is
the empty product `1`. -/
def identityStrides : List IV → List IV
  | [] => []
  | _ :: rest =>
    (rest.foldr
      (fun d acc =>
        match d, acc with
        | IV.v n, IV.v m => IV.v (n * m)
        | _, _ => IV.dyn)
      (IV.v 1)) :: identityStrides rest

/-- Model of `mlir::getStridesAndOffset` on the layouts of this model:
identity layouts have canonical suffix-product strides and offset `0`,
explicit strided layouts report their own strides and offset, and other
layouts fail. -/
def getStridesAndOffset (ty : MemRefTy) : Option (List IV × IV) :=
  match ty.layout with
  | .identity => some (identityStrides ty.shape, IV.v 0)
  | .strided off strs => some (strs, off)
  | .other => none

/-- Loop body of `getLinearizedShape` (lines 497-502): multiply the static
dimensions left to right; return `none` on the first dynamic dimension. -/
def linearizeShapeLoop : List IV → Int → Option Int
  | [], acc => some acc
  | IV.dyn :: _, _ => none
  | IV.v n :: rest, acc => linearizeShapeLoop rest (acc * n)

/-- Embedding of `getLinearizedShape` (lines 492-508): rank 0 yields the
empty shape; any dynamic dimension yields the single dynamic dimension;
otherwise the single dimension `(product + scale - 1) / scale` with
`scale = dstBits / srcBits` (C++ `int` division). -/
def getLinearizedShape (shape : List IV) (srcBits dstBits : Nat) : List IV :=
  if shape = [] then []
  else
    match linearizeShapeLoop shape 1 with
    | none => [IV.dyn]
    | some linearizedShape =>
      let scale : Int := ((dstBits : Int).tdiv (srcBits : Int))
      [IV.v ((linearizedShape + scale - 1).tdiv scale)]

/-- Test of `!strides.empty() && strides.back() != 1` (line 528), negated:
an empty stride list passes, otherwise the last stride must be the static
value 1. -/
def lastStrideUnit : List IV → Bool
  | [] => true
  | [s] => s = IV.v 1
  | _ :: s :: rest => lastStrideUnit (s :: rest)

/-- Embedding of the memref type conversion installed by
`populateMemRefNarrowTypeEmulationConversions` (lines 510-557):
non-integer elements and widths `>= loadStoreWidth` pass through unchanged;
`getStridesAndOffset` failure or a non-unit innermost stride rejects;
otherwise the element becomes an integer of the load-store width with the
original signedness, the shape is linearized, a zero static offset needs no
layout annotation, a dynamic offset keeps a dynamic offset with stride 1,
and a nonzero static offset is scaled by `(offset * width) / loadStoreWidth`
provided `(offset * width) % loadStoreWidth == 0` (C++ `int64_t`
arithmetic), and rejects otherwise. -/
def convertMemRefType (loadStoreWidth : Nat) (ty : MemRefTy) :
    Option MemRefTy :=
  match ty.elem with
  | .nonInt _ _ => some ty
  | .int width sgn =>
    if loadStoreWidth ≤ width then some ty
    else
      match getStridesAndOffset ty with
      | none => none
      | some (strides, offset) =>
        if ¬ lastStrideUnit strides then none
        else
          let newElemTy : ElemTy := .int loadStoreWidth sgn
          let newShape : List IV := getLinearizedShape ty.shape width loadStoreWidth
          match offset with
          | IV.dyn =>
            some ⟨newElemTy, newShape, .strided IV.dyn [IV.v 1], ty.memSpace⟩
          | IV.v o =>
            if o = 0 then some ⟨newElemTy, newShape, .identity, ty.memSpace⟩
            else if (o * (width : Int)).tmod (loadStoreWidth : Int) ≠ 0 then none
            else
              some ⟨newElemTy, newShape,
                .strided (IV.v ((o * (width : Int)).tdiv (loadStoreWidth : Int))) [IV.v 1],
                ty.memSpace⟩

/-- Embedding of `mlir::ceilDiv` from `mlir/Support/MathExtras.h`, the C-style
signed ceiling division used on the subview size. -/
def ceilDivMLIR (lhs rhs : Int) : Int :=
  let x : Int := if rhs > 0 then -1 else 1
  if lhs * rhs > 0 then (lhs + x).tdiv rhs + 1 else -((-lhs).tdiv rhs)

/-- Model of a `memref.subview` operation as consumed by
`ConvertMemRefSubview`: the result memref type and the static offset, size
and stride lists (index 0 is the only one inspected). -/
structure SubViewOp where
  resultType : MemRefTy
  staticOffsets : List IV
  staticSizes : List IV
  staticStrides : List IV
deriving DecidableEq

/-- Accessor `op.getStaticOffset(0)`. -/
def SubViewOp.staticOffset0 (op : SubViewOp) : IV := op.staticOffsets.getD 0 IV.dyn

/-- Accessor `op.getStaticSize(0)`. -/
def SubViewOp.staticSize0 (op : SubViewOp) : IV := op.staticSizes.getD 0 IV.dyn

/-- Accessor `op.getStaticStride(0)`. -/
def SubViewOp.staticStride0 (op : SubViewOp) : IV := op.staticStrides.getD 0 IV.dyn

/-- Replacement `memref.subview` emitted on the success path (lines 466-468). -/
structure SubViewRepl where
  newType : MemRefTy
  offset : Int
  size : Int
  staticStrides : List IV
deriving DecidableEq

/-- Verdict of a conversion pattern: either a replacement operation, or a
match failure carrying the diagnostic string; a failure emits no
instructions (all precondition checks in the modelled patterns precede any
instruction emission). -/
inductive RewriteResult (α : Type) where
  | success : α → RewriteResult α
  | failure : String → RewriteResult α
deriving DecidableEq

/-- Embedding of `ConvertMemRefSubview::matchAndRewrite` (lines 415-470),
with its checks in source order: type conversion, divisibility, result rank,
unit stride, static size and offset, offset a multiple of
`elementsPerByte`; then the rewritten subview. -/
def convertMemRefSubview (loadStoreWidth : Nat) (op : SubViewOp) :
    RewriteResult SubViewRepl :=
  match convertMemRefType loadStoreWidth op.resultType with
  | none => .failure "failed to convert memref type"
  | some newTy =>
    let srcBits := elemWidth op.resultType.elem
    let dstBits := elemWidth newTy.elem
    if dstBits % srcBits ≠ 0 then
      .failure "only dstBits % srcBits == 0 supported"
    else if op.resultType.shape.length ≠ 1 then
      .failure "subview with rank > 1 is not supported"
    else if op.staticStride0 ≠ IV.v 1 then
      .failure "subview with stride != 1 is not supported"
    else
      match op.staticSize0, op.staticOffset0 with
      | IV.dyn, _ =>
        .failure "subview with dynamic size or offset is not supported"
      | _, IV.dyn =>
        .failure "subview with dynamic size or offset is not supported"
      | IV.v size, IV.v offset =>
        let elementsPerByte : Int := (dstBits : Int).tdiv (srcBits : Int)
        if offset.tmod elementsPerByte ≠ 0 then
          .failure
            "subview with offset not multiple of elementsPerByte is not supported"
        else
          .success ⟨newTy, offset.tdiv elementsPerByte,
            ceilDivMLIR size elementsPerByte, op.staticStrides⟩

/-- Big-endian element slot: under the packing order the code implements
(element `x` of a container is located `(x % scale) * srcBits` bits from the
most significant end, per the comment on `getOffsetForBitwidth`), element
`e` of container `c` occupies the `srcBits` bits starting at bit
`(scale - 1 - e) * srcBits` from the least significant end. -/
def extractElement (srcBits dstBits e c : Nat) : Nat :=
  (c >>> ((dstBits / srcBits - 1 - e) * srcBits)) % 2 ^ srcBits

/-! ## Helper lemmas -/

theorem scale_pos {s t : Nat} (hs : 0 < s) (ht : 0 < t) (hdvd : s ∣ t) :
    0 < t / s :=
  Nat.div_pos (Nat.le_of_dvd ht hdvd) hs

theorem scale_mul {s t : Nat} (hdvd : s ∣ t) : t / s * s = t :=
  Nat.div_mul_cancel hdvd

theorem loadBitwidthOffset_eq (lin s t : Nat) :
    loadBitwidthOffset lin s t = lin % (t / s) * s := rfl

theorem storeBitwidthOffset_eq (lin s t : Nat) :
    storeBitwidthOffset lin s t = (t / s - 1 - lin % (t / s)) * s := rfl

theorem loadBitwidthOffset_add_le {s t : Nat} (lin : Nat) (hs : 0 < s)
    (ht : 0 < t) (hdvd : s ∣ t) : loadBitwidthOffset lin s t + s ≤ t := by
  have hk : 0 < t / s := scale_pos hs ht hdvd
  have hmod : lin % (t / s) ≤ t / s - 1 := by
    have := Nat.mod_lt lin hk
    omega
  calc loadBitwidthOffset lin s t + s
      = lin % (t / s) * s + s := by rw [loadBitwidthOffset_eq]
    _ ≤ (t / s - 1) * s + s := by
        exact Nat.add_le_add_right (Nat.mul_le_mul_right s hmod) s
    _ = t / s * s := by
        have : t / s - 1 + 1 = t / s := by omega
        calc (t / s - 1) * s + s = (t / s - 1 + 1) * s := by ring
          _ = t / s * s := by rw [this]
    _ = t := scale_mul hdvd

theorem storeBitwidthOffset_add_le {s t : Nat} (lin : Nat) (hs : 0 < s)
    (ht : 0 < t) (hdvd : s ∣ t) : storeBitwidthOffset lin s t + s ≤ t := by
  have hk : 0 < t / s := scale_pos hs ht hdvd
  have hmod : t / s - 1 - lin % (t / s) ≤ t / s - 1 := Nat.sub_le _ _
  calc storeBitwidthOffset lin s t + s
      = (t / s - 1 - lin % (t / s)) * s + s := by rw [storeBitwidthOffset_eq]
    _ ≤ (t / s - 1) * s + s := Nat.add_le_add_right (Nat.mul_le_mul_right s hmod) s
    _ = (t / s - 1 + 1) * s := by ring
    _ = t / s * s := by
        have : t / s - 1 + 1 = t / s := by omega
        rw [this]
    _ = t := scale_mul hdvd

/-- Truncating the right-aligned source mask to `dstBits ≥ srcBits` does not
change it, and `andi` with it is reduction modulo `2^srcBits`. -/
theorem and_srcMask_eq_mod (x s t : Nat) (hst : s ≤ t) :
    x &&& (((1 <<< s) - 1) % 2 ^ t) = x % 2 ^ s := by
  have h1 : (1 : Nat) <<< s = 2 ^ s := Nat.one_shiftLeft s
  have h2 : (2 : Nat) ^ s - 1 < 2 ^ t :=
    lt_of_lt_of_le (Nat.sub_lt (Nat.pos_pow_of_pos s (by norm_num)) one_pos)
      (Nat.pow_le_pow_right (by norm_num) hst)
  rw [h1, Nat.mod_eq_of_lt h2, Nat.and_pow_two_sub_one_eq_mod]

/-- Reducing an arithmetic shift right modulo `2^s` ignores the propagated
sign bits as long as the `s` bits inspected come from below the sign
extension, i.e. `amt + s ≤ w`. -/
theorem shrsi_mod_pow (w v amt s : Nat) (h : amt + s ≤ w) :
    shrsi w v amt % 2 ^ s = (v >>> amt) % 2 ^ s := by
  unfold shrsi
  split
  · have hdvd : 2 ^ s ∣ 2 ^ w - 2 ^ (w - amt) := by
      have h1 : (2 : Nat) ^ s ∣ 2 ^ w := pow_dvd_pow 2 (by omega)
      have h2 : (2 : Nat) ^ s ∣ 2 ^ (w - amt) := pow_dvd_pow 2 (by omega)
      exact Nat.dvd_sub' h1 h2
    obtain ⟨m, hm⟩ := hdvd
    rw [hm, Nat.add_mul_mod_self_left]
  · rfl

/-- Value of the masked rewritten load: the `srcBits` bits of the container
starting at the load's shift offset. -/
theorem loadResultMasked_eq {s t : Nat} (lin c : Nat) (hs : 0 < s)
    (ht : 0 < t) (hdvd : s ∣ t) :
    loadResultMasked lin s t c = (c >>> loadBitwidthOffset lin s t) % 2 ^ s := by
  have hst : s ≤ t := Nat.le_of_dvd ht hdvd
  unfold loadResultMasked loadBitsLoad
  rw [and_srcMask_eq_mod _ _ _ hst,
    shrsi_mod_pow t c (loadBitwidthOffset lin s t) s
      (loadBitwidthOffset_add_le lin hs ht hdvd)]

theorem loadResultMasked_lt {s t : Nat} (lin c : Nat) (hs : 0 < s)
    (ht : 0 < t) (hdvd : s ∣ t) : loadResultMasked lin s t c < 2 ^ s := by
  rw [loadResultMasked_eq lin c hs ht hdvd]
  exact Nat.mod_lt _ (Nat.pos_pow_of_pos s (by norm_num))

/-- Bit `j` of the atomic write mask, for `s ≤ t`: set exactly when `j` is a
container bit (`j < t`) outside the window of `s` bits starting at `o`. -/
theorem getAtomicWriteMask_testBit (s t o j : Nat) (hst : s ≤ t) :
    (getAtomicWriteMask s t o).testBit j = true ↔
      j < t ∧ ¬(o ≤ j ∧ j - o < s) := by
  have h1 : (1 : Nat) <<< s = 2 ^ s := Nat.one_shiftLeft s
  have h2 : (2 : Nat) ^ s - 1 < 2 ^ t :=
    lt_of_lt_of_le (Nat.sub_lt (Nat.pos_pow_of_pos s (by norm_num)) one_pos)
      (Nat.pow_le_pow_right (by norm_num) hst)
  unfold getAtomicWriteMask
  simp only [h1, Nat.mod_eq_of_lt h2, Nat.testBit_xor, Nat.testBit_mod_two_pow,
    Nat.testBit_shiftLeft, Nat.testBit_two_pow_sub_one, ge_iff_le]
  by_cases hjt : j < t <;> by_cases hoj : o ≤ j <;> by_cases hw : j - o < s <;>
    simp [hjt, hoj, hw]

/-- Bits of the container outside the `s`-bit window at the store's offset
are untouched by the store's clear-then-set pair, for any stored value
`v < 2^s`. -/
theorem storeNewContainer_testBit_outside (i s t c v j : Nat) (hs : 0 < s)
    (ht : 0 < t) (hdvd : s ∣ t) (hc : c < 2 ^ t) (hv : v < 2 ^ s)
    (hj : j < storeBitwidthOffset i s t ∨ storeBitwidthOffset i s t + s ≤ j) :
    (storeNewContainer i s t c v).testBit j = c.testBit j := by
  have hos : storeBitwidthOffset i s t + s ≤ t :=
    storeBitwidthOffset_add_le i hs ht hdvd
  have hst : s ≤ t := Nat.le_of_dvd ht hdvd
  unfold storeNewContainer storeAlignedVal storeWriteMask
  rw [Nat.testBit_or, Nat.testBit_and]
  have haligned : ((v <<< storeBitwidthOffset i s t) % 2 ^ t).testBit j = false := by
    simp only [Nat.testBit_mod_two_pow, Nat.testBit_shiftLeft, ge_iff_le]
    rcases hj with hj | hj
    · have hno : ¬ storeBitwidthOffset i s t ≤ j := by omega
      simp [hno]
    · by_cases hjt : j < t
      · have hvb : v.testBit (j - storeBitwidthOffset i s t) = false :=
          Nat.testBit_lt_two_pow
            (lt_of_lt_of_le hv (Nat.pow_le_pow_right (by norm_num) (by omega)))
        simp [hvb]
      · simp [hjt]
  rw [haligned, Bool.or_false]
  by_cases hjt : j < t
  · have hmask : (getAtomicWriteMask s t (storeBitwidthOffset i s t)).testBit j = true := by
      rw [getAtomicWriteMask_testBit s t (storeBitwidthOffset i s t) j hst]
      omega
    rw [hmask, Bool.and_true]
  · have hcb : c.testBit j = false :=
      Nat.testBit_lt_two_pow
        (lt_of_lt_of_le hc (Nat.pow_le_pow_right (by norm_num) (by omega)))
    rw [hcb, Bool.false_and]

/-! ## Claim theorems -/

/-- Claim C1: for `s ∣ t` with scale `k = t / s`, loading the element at
linear index `i` and storing that same value back at index `i` leaves the
bits of the container's other `k - 1` elements unchanged: the store's
atomic AND clears, and its atomic OR sets, only the `s` bits at the
element's own (big-endian) position, so every container bit outside that
window, and hence every other element slot, is preserved. -/
theorem claim1_roundTrip_isolation (i s t c : Nat) (hs : 0 < s) (ht : 0 < t)
    (hdvd : s ∣ t) (hc : c < 2 ^ t) :
    (∀ j, j < storeBitwidthOffset i s t ∨ storeBitwidthOffset i s t + s ≤ j →
      (storeNewContainer i s t c (loadResultMasked i s t c)).testBit j =
        c.testBit j) ∧
    (∀ e, e < t / s → e ≠ i % (t / s) →
      extractElement s t e (storeNewContainer i s t c (loadResultMasked i s t c)) =
        extractElement s t e c) := by
  have hvlt : loadResultMasked i s t c < 2 ^ s := loadResultMasked_lt i c hs ht hdvd
  have hbit : ∀ j, j < storeBitwidthOffset i s t ∨ storeBitwidthOffset i s t + s ≤ j →
      (storeNewContainer i s t c (loadResultMasked i s t c)).testBit j =
        c.testBit j :=
    fun j hj => storeNewContainer_testBit_outside i s t c _ j hs ht hdvd hc hvlt hj
  refine ⟨hbit, ?_⟩
  intro e he hne
  unfold extractElement
  apply Nat.eq_of_testBit_eq
  intro j
  simp only [Nat.testBit_mod_two_pow, Nat.testBit_shiftRight]
  by_cases hjs : j < s
  · have hik : i % (t / s) < t / s := Nat.mod_lt i (scale_pos hs ht hdvd)
    have hout : (t / s - 1 - e) * s + j < storeBitwidthOffset i s t ∨
        storeBitwidthOffset i s t + s ≤ (t / s - 1 - e) * s + j := by
      rw [storeBitwidthOffset_eq]
      rcases Nat.lt_or_ge (t / s - 1 - e) (t / s - 1 - i % (t / s)) with hab | hab
      · left
        have hsucc : (t / s - 1 - e) + 1 ≤ t / s - 1 - i % (t / s) := hab
        calc (t / s - 1 - e) * s + j < (t / s - 1 - e) * s + s := by omega
          _ = ((t / s - 1 - e) + 1) * s := by ring
          _ ≤ (t / s - 1 - i % (t / s)) * s := Nat.mul_le_mul_right s hsucc
      · right
        have hba : (t / s - 1 - i % (t / s)) + 1 ≤ t / s - 1 - e := by omega
        calc (t / s - 1 - i % (t / s)) * s + s
            = ((t / s - 1 - i % (t / s)) + 1) * s := by ring
          _ ≤ (t / s - 1 - e) * s := Nat.mul_le_mul_right s hba
          _ ≤ (t / s - 1 - e) * s + j := Nat.le_add_right _ _
    rw [hbit _ hout]
  · simp [hjs]

/-- Witness for claim C1 at `i = 3`, `s = 4`, `t = 8`, `c = 0xAB`. -/
theorem claim1_witness :
    (∀ j, j < storeBitwidthOffset 3 4 8 ∨ storeBitwidthOffset 3 4 8 + 4 ≤ j →
      (storeNewContainer 3 4 8 0xAB (loadResultMasked 3 4 8 0xAB)).testBit j =
        (0xAB : Nat).testBit j) ∧
    (∀ e, e < 8 / 4 → e ≠ 3 % (8 / 4) →
      extractElement 4 8 e (storeNewContainer 3 4 8 0xAB (loadResultMasked 3 4 8 0xAB)) =
        extractElement 4 8 e 0xAB) :=
  claim1_roundTrip_isolation 3 4 8 0xAB (by decide) (by decide) (by decide)
    (by decide)

/-- Claim C2: for every non-negative index `i` and widths `s`, `t` with `t` a
positive multiple of `s` and `scale = t / s`, the bit-offset calculator
returns `(i mod scale) * s` when `rightAligned` is false and
`(scale - 1 - (i mod scale)) * s` (exact integer subtraction) when it is
true, and materializes the result as an integer value of width `t`. -/
theorem claim2_getOffsetForBitwidth (i s t : Nat) (hs : 0 < s) (ht : 0 < t)
    (hdvd : s ∣ t) :
    ((getOffsetForBitwidth i s t false).val : Int) =
      (i : Int) % ((t / s : Nat) : Int) * (s : Int) ∧
    ((getOffsetForBitwidth i s t true).val : Int) =
      (((t / s : Nat) : Int) - 1 - (i : Int) % ((t / s : Nat) : Int)) * (s : Int) ∧
    (getOffsetForBitwidth i s t false).width = t ∧
    (getOffsetForBitwidth i s t true).width = t := by
  have hk : 0 < t / s := scale_pos hs ht hdvd
  have hmod : i % (t / s) < t / s := Nat.mod_lt i hk
  refine ⟨?_, ?_, rfl, rfl⟩
  · show ((i % (t / s) * s : Nat) : Int) = (i : Int) % ((t / s : Nat) : Int) * (s : Int)
    push_cast
    ring
  · show (((t / s - 1 - i % (t / s)) * s : Nat) : Int) =
      (((t / s : Nat) : Int) - 1 - (i : Int) % ((t / s : Nat) : Int)) * (s : Int)
    have hcast : (((t / s - 1 - i % (t / s)) : Nat) : Int) =
        ((t / s : Nat) : Int) - 1 - ((i % (t / s) : Nat) : Int) := by omega
    push_cast [hcast]
    ring

/-- Witness for claim C2 at `i = 3`, `s = 4`, `t = 8`. -/
theorem claim2_witness :
    ((getOffsetForBitwidth 3 4 8 false).val : Int) =
      (3 : Int) % ((8 / 4 : Nat) : Int) * (4 : Int) ∧
    ((getOffsetForBitwidth 3 4 8 true).val : Int) =
      (((8 / 4 : Nat) : Int) - 1 - (3 : Int) % ((8 / 4 : Nat) : Int)) * (4 : Int) ∧
    (getOffsetForBitwidth 3 4 8 false).width = 8 ∧
    (getOffsetForBitwidth 3 4 8 true).width = 8 :=
  claim2_getOffsetForBitwidth 3 4 8 (by decide) (by decide) (by decide)

/-- Claim C4: for widths with `t` a positive multiple of `s` and the
right-aligned offset `o` of any index `i`, the atomic write mask is the
bitwise inverse of `((1 <<< s) - 1) <<< o`: a `t`-bit value whose bit `j` is
clear exactly on the `s` contiguous bits starting at `o` and set on the
other `t - s` container bits. -/
theorem claim4_atomicWriteMask (i s t o : Nat) (hs : 0 < s) (ht : 0 < t)
    (hdvd : s ∣ t) (ho : o = (getOffsetForBitwidth i s t true).val) :
    getAtomicWriteMask s t o < 2 ^ t ∧
    getAtomicWriteMask s t o = (((1 <<< s) - 1) <<< o) ^^^ (2 ^ t - 1) ∧
    (∀ j, j < t → ((getAtomicWriteMask s t o).testBit j ↔ ¬(o ≤ j ∧ j < o + s))) := by
  have hst : s ≤ t := Nat.le_of_dvd ht hdvd
  have hos : o + s ≤ t := by
    rw [ho]; exact storeBitwidthOffset_add_le i hs ht hdvd
  have h1 : (1 : Nat) <<< s = 2 ^ s := Nat.one_shiftLeft s
  have hnowrap : ((1 : Nat) <<< s - 1) <<< o < 2 ^ t := by
    rw [h1, Nat.shiftLeft_eq]
    calc (2 ^ s - 1) * 2 ^ o < 2 ^ s * 2 ^ o := by
          refine (Nat.mul_lt_mul_right (Nat.pos_pow_of_pos o (by norm_num))).mpr ?_
          exact Nat.sub_lt (Nat.pos_pow_of_pos s (by norm_num)) one_pos
      _ = 2 ^ (s + o) := by rw [pow_add]
      _ ≤ 2 ^ t := Nat.pow_le_pow_right (by norm_num) (by omega)
  have h2 : (2 : Nat) ^ s - 1 < 2 ^ t :=
    lt_of_lt_of_le (Nat.sub_lt (Nat.pos_pow_of_pos s (by norm_num)) one_pos)
      (Nat.pow_le_pow_right (by norm_num) hst)
  refine ⟨?_, ?_, ?_⟩
  · unfold getAtomicWriteMask
    have hx : ((1 <<< s - 1) % 2 ^ t) <<< o % 2 ^ t < 2 ^ t :=
      Nat.mod_lt _ (Nat.pos_pow_of_pos t (by norm_num))
    have hy : 2 ^ t - 1 < 2 ^ t :=
      Nat.sub_lt (Nat.pos_pow_of_pos t (by norm_num)) one_pos
    exact Nat.xor_lt_two_pow hx hy
  · show (((1 <<< s) - 1) % 2 ^ t) <<< o % 2 ^ t ^^^ (2 ^ t - 1) =
      (((1 <<< s) - 1) <<< o) ^^^ (2 ^ t - 1)
    rw [h1, Nat.mod_eq_of_lt h2]
    rw [h1] at hnowrap
    rw [Nat.mod_eq_of_lt hnowrap]
  · intro j hj
    rw [getAtomicWriteMask_testBit s t o j hst]
    omega

/-- Witness for claim C4 at `i = 3`, `s = 4`, `t = 8`, `o = 0`. -/
theorem claim4_witness :
    getAtomicWriteMask 4 8 0 < 2 ^ 8 ∧
    getAtomicWriteMask 4 8 0 = (((1 <<< 4) - 1) <<< 0) ^^^ (2 ^ 8 - 1) ∧
    (∀ j, j < 8 → ((getAtomicWriteMask 4 8 0).testBit j ↔ ¬(0 ≤ j ∧ j < 0 + 4))) :=
  claim4_atomicWriteMask 3 4 8 0 (by decide) (by decide) (by decide) (by decide)

/-- Claim C3, counterexample: at index `0` with `s = 4`, `t = 8`, the
rewritten load's shift amount is the `rightOffset = false` value `0`, not
the right-aligned offset `4` the claim names, and the rewritten store's
offset is the `rightOffset = true` value `4`, not the left-aligned offset
`0` the claim names. -/
theorem claim3_counterexample :
    loadBitwidthOffset 0 4 8 = 0 ∧ (getOffsetForBitwidth 0 4 8 true).val = 4 ∧
    storeBitwidthOffset 0 4 8 = 4 ∧ (getOffsetForBitwidth 0 4 8 false).val = 0 ∧
    loadBitwidthOffset 0 4 8 ≠ (getOffsetForBitwidth 0 4 8 true).val ∧
    storeBitwidthOffset 0 4 8 ≠ (getOffsetForBitwidth 0 4 8 false).val := by
  decide

/-- Claim C3, amended: in the rewritten operations for rank ≥ 1 buffers, the
load shifts the loaded container down by the `rightAligned = false` offset
`offset(i, s, t, false)`, while the store uses the `rightAligned = true`
offset `offset(i, s, t, true)` both to shift the extended new value into
place and to build the clear mask; the two offsets are complementary,
summing to `t - s`. -/
theorem claim3_amended (i s t v : Nat) (hs : 0 < s) (ht : 0 < t)
    (hdvd : s ∣ t) :
    loadBitwidthOffset i s t = (getOffsetForBitwidth i s t false).val ∧
    storeBitwidthOffset i s t = (getOffsetForBitwidth i s t true).val ∧
    storeWriteMask i s t = getAtomicWriteMask s t (getOffsetForBitwidth i s t true).val ∧
    storeAlignedVal i s t v = (v <<< (getOffsetForBitwidth i s t true).val) % 2 ^ t ∧
    loadBitwidthOffset i s t + storeBitwidthOffset i s t = t - s := by
  refine ⟨rfl, rfl, rfl, rfl, ?_⟩
  have hk : 0 < t / s := scale_pos hs ht hdvd
  have hmod : i % (t / s) < t / s := Nat.mod_lt i hk
  rw [loadBitwidthOffset_eq, storeBitwidthOffset_eq]
  have hts : t / s * s = t := scale_mul hdvd
  have hsum : i % (t / s) + (t / s - 1 - i % (t / s)) = t / s - 1 := by omega
  calc i % (t / s) * s + (t / s - 1 - i % (t / s)) * s
      = (i % (t / s) + (t / s - 1 - i % (t / s))) * s := by ring
    _ = (t / s - 1) * s := by rw [hsum]
    _ = t / s * s - 1 * s := by rw [Nat.sub_mul]
    _ = t - s := by rw [hts]; ring_nf

/-- Witness for the amended claim C3 at `i = 3`, `s = 4`, `t = 8`,
`v = 11`. -/
theorem claim3_amended_witness :
    loadBitwidthOffset 3 4 8 = (getOffsetForBitwidth 3 4 8 false).val ∧
    storeBitwidthOffset 3 4 8 = (getOffsetForBitwidth 3 4 8 true).val ∧
    storeWriteMask 3 4 8 = getAtomicWriteMask 4 8 (getOffsetForBitwidth 3 4 8 true).val ∧
    storeAlignedVal 3 4 8 11 = (11 <<< (getOffsetForBitwidth 3 4 8 true).val) % 2 ^ 8 ∧
    loadBitwidthOffset 3 4 8 + storeBitwidthOffset 3 4 8 = 8 - 4 :=
  claim3_amended 3 4 8 11 (by decide) (by decide) (by decide)

/-- Claim C10: the rewritten load's result depends only on the `s` bits of
the loaded container at the load's shift offset: two containers that agree
on those bits produce equal results, both through the
`arith.shrsi`-then-`(1 <<< s) - 1`-mask sequence and through the
`arith.shrsi`-then-truncate sequence (truncating to the narrow result
width `r ≤ s`), even though `arith.shrsi` propagates the container's sign
bit. -/
theorem claim10_load_noninterference (i s t r c1 c2 : Nat) (hs : 0 < s)
    (ht : 0 < t) (hdvd : s ∣ t) (hr : r ≤ s)
    (hagree : ∀ j, j < s →
      c1.testBit (loadBitwidthOffset i s t + j) =
        c2.testBit (loadBitwidthOffset i s t + j)) :
    loadResultMasked i s t c1 = loadResultMasked i s t c2 ∧
    loadResultTrunc i s t r c1 = loadResultTrunc i s t r c2 := by
  have hst : s ≤ t := Nat.le_of_dvd ht hdvd
  have hos : loadBitwidthOffset i s t + s ≤ t :=
    loadBitwidthOffset_add_le i hs ht hdvd
  have hmask : loadResultMasked i s t c1 = loadResultMasked i s t c2 := by
    rw [loadResultMasked_eq i c1 hs ht hdvd, loadResultMasked_eq i c2 hs ht hdvd]
    apply Nat.eq_of_testBit_eq
    intro j
    simp only [Nat.testBit_mod_two_pow, Nat.testBit_shiftRight]
    by_cases hjs : j < s
    · rw [hagree j hjs]
    · simp [hjs]
  refine ⟨hmask, ?_⟩
  have htr : ∀ c : Nat, loadResultTrunc i s t r c = loadResultMasked i s t c % 2 ^ r := by
    intro c
    rw [loadResultMasked_eq i c hs ht hdvd]
    unfold loadResultTrunc loadBitsLoad
    rw [← Nat.mod_mod_of_dvd (shrsi t c (loadBitwidthOffset i s t))
        (pow_dvd_pow 2 hr),
      shrsi_mod_pow t c (loadBitwidthOffset i s t) s hos]
  rw [htr c1, htr c2, hmask]

/-- Witness for claim C10 at `i = 3`, `s = 4`, `t = 8`, `r = 4`, with the
containers `0xAB` and `0xAD` agreeing on bits 4..7. -/
theorem claim10_witness :
    loadResultMasked 3 4 8 0xAB = loadResultMasked 3 4 8 0xAD ∧
    loadResultTrunc 3 4 8 4 0xAB = loadResultTrunc 3 4 8 4 0xAD :=
  claim10_load_noninterference 3 4 8 4 0xAB 0xAD (by decide) (by decide)
    (by decide) (by decide) (by decide)

/-- Loop of `getLinearizedShape` returns `none` exactly when some dimension
is dynamic. -/
theorem linearizeShapeLoop_none_iff (shape : List IV) (acc : Int) :
    linearizeShapeLoop shape acc = none ↔ IV.dyn ∈ shape := by
  induction shape generalizing acc with
  | nil => simp [linearizeShapeLoop]
  | cons d rest ih =>
    cases d with
    | dyn => simp [linearizeShapeLoop]
    | v n => simp [linearizeShapeLoop, ih]

/-- Fields of a successfully converted narrow-element memref type: the
element becomes an integer of the load-store width with the original
signedness, the shape is the linearized shape, and the memory space is
propagated. -/
theorem convertMemRefType_narrow_fields (lsw w : Nat) (sgn : Signedness)
    (ty nt : MemRefTy) (helem : ty.elem = .int w sgn) (hw : w < lsw)
    (hconv : convertMemRefType lsw ty = some nt) :
    nt.elem = .int lsw sgn ∧
    nt.shape = getLinearizedShape ty.shape w lsw ∧
    nt.memSpace = ty.memSpace := by
  unfold convertMemRefType at hconv
  rw [helem] at hconv
  simp only at hconv
  rw [if_neg (by omega : ¬ lsw ≤ w)] at hconv
  split at hconv
  · exact absurd hconv (by simp)
  · split at hconv
    · exact absurd hconv (by simp)
    · split at hconv
      · obtain rfl := Option.some.inj hconv
        exact ⟨rfl, rfl, rfl⟩
      · split at hconv
        · obtain rfl := Option.some.inj hconv
          exact ⟨rfl, rfl, rfl⟩
        · split at hconv
          · exact absurd hconv (by simp)
          · obtain rfl := Option.some.inj hconv
            exact ⟨rfl, rfl, rfl⟩


/-- Claim C5, counterexample: the rank-0 narrow type `memref<i4>` is
accepted by the converter (identity layout, element width 4 < 8), has no
dynamic dimension and total element count 1, yet the converted shape is the
empty (rank-0) shape, not the single dimension `ceil(1 / 2) = 1` the claim
predicts for every original rank. -/
theorem claim5_counterexample :
    (convertMemRefType 8 ⟨.int 4 .signless, [], .identity, 0⟩).map
        MemRefTy.shape = some [] ∧
    (convertMemRefType 8 ⟨.int 4 .signless, [], .identity, 0⟩).map
        MemRefTy.shape ≠ some [IV.v 1] := by
  decide

/-- Claim C5, amended: for every narrow-element buffer type of rank at least
1 that the converter accepts, the converted shape is a single dynamic
dimension when any original dimension is dynamic, and otherwise the single
dimension `ceil(totalElementCount / scale)` with `scale` the C-truncated
quotient of the addressable width by the element width. -/
theorem claim5_linearized_shape (lsw w : Nat) (sgn : Signedness)
    (ty nt : MemRefTy) (helem : ty.elem = .int w sgn) (hw : w < lsw)
    (hrank : ty.shape ≠ []) (hconv : convertMemRefType lsw ty = some nt) :
    (IV.dyn ∈ ty.shape → nt.shape = [IV.dyn]) ∧
    (∀ P : Int, linearizeShapeLoop ty.shape 1 = some P →
      nt.shape = [IV.v ((P + (lsw : Int).tdiv (w : Int) - 1).tdiv
        ((lsw : Int).tdiv (w : Int)))]) := by
  obtain ⟨-, hshape, -⟩ :=
    convertMemRefType_narrow_fields lsw w sgn ty nt helem hw hconv
  constructor
  · intro hdyn
    rw [hshape]
    unfold getLinearizedShape
    rw [if_neg hrank, (linearizeShapeLoop_none_iff ty.shape 1).mpr hdyn]
  · intro P hP
    rw [hshape]
    unfold getLinearizedShape
    rw [if_neg hrank, hP]

/-- Witness for the amended claim C5: `memref<10xi4>` converts to
`memref<5xi8>`. -/
theorem claim5_witness :
    (IV.dyn ∈ ([IV.v 10] : List IV) →
      MemRefTy.shape ⟨.int 8 .signless, [IV.v 5], .identity, 0⟩ = [IV.dyn]) ∧
    (∀ P : Int, linearizeShapeLoop [IV.v 10] 1 = some P →
      MemRefTy.shape ⟨.int 8 .signless, [IV.v 5], .identity, 0⟩ =
        [IV.v ((P + (8 : Int).tdiv (4 : Int) - 1).tdiv ((8 : Int).tdiv (4 : Int)))]) :=
  claim5_linearized_shape 8 4 .signless
    ⟨.int 4 .signless, [IV.v 10], .identity, 0⟩
    ⟨.int 8 .signless, [IV.v 5], .identity, 0⟩
    rfl (by decide) (by decide) (by decide)

/-- Claim C9: a rank-0 buffer type with a narrow integer element converts to
a rank-0 (empty-shape) type whose element has the addressable width and the
original signedness, with the memory space preserved -- not to a rank-1
shape. -/
theorem claim9_rank0_shape (lsw w : Nat) (sgn : Signedness)
    (ty nt : MemRefTy) (helem : ty.elem = .int w sgn) (hw : w < lsw)
    (hrank : ty.shape = []) (hconv : convertMemRefType lsw ty = some nt) :
    nt.shape = [] ∧ nt.elem = .int lsw sgn ∧ nt.memSpace = ty.memSpace := by
  obtain ⟨he, hshape, hm⟩ :=
    convertMemRefType_narrow_fields lsw w sgn ty nt helem hw hconv
  refine ⟨?_, he, hm⟩
  rw [hshape, hrank]
  rfl

/-- Witness for claim C9: rank-0 `memref<i4>` in memory space 3 converts to
rank-0 `memref<i8>` in memory space 3. -/
theorem claim9_witness :
    MemRefTy.shape ⟨.int 8 .signless, [], .identity, 3⟩ = [] ∧
    MemRefTy.elem ⟨.int 8 .signless, [], .identity, 3⟩ = .int 8 .signless ∧
    MemRefTy.memSpace ⟨.int 8 .signless, [], .identity, 3⟩ =
      MemRefTy.memSpace ⟨.int 4 .signless, [], .identity, 3⟩ :=
  claim9_rank0_shape 8 4 .signless ⟨.int 4 .signless, [], .identity, 3⟩
    ⟨.int 8 .signless, [], .identity, 3⟩ rfl (by decide) rfl (by decide)

/-- Claim C7: buffer types whose element is not an integer, or whose integer
element is at least as wide as the addressable width, pass through the type
converter unchanged, and consequently converting twice equals converting
once on such types. -/
theorem claim7_wide_passthrough (lsw : Nat) (ty : MemRefTy)
    (h : (∀ w sgn, ty.elem ≠ ElemTy.int w sgn) ∨
      ∃ w sgn, ty.elem = ElemTy.int w sgn ∧ lsw ≤ w) :
    convertMemRefType lsw ty = some ty ∧
    (convertMemRefType lsw ty).bind (convertMemRefType lsw) =
      convertMemRefType lsw ty := by
  have hid : convertMemRefType lsw ty = some ty := by
    unfold convertMemRefType
    rcases h with h | ⟨w, sgn, he, hle⟩
    · cases helem : ty.elem with
      | int w sgn => exact absurd helem (h w sgn)
      | nonInt a b => rfl
    · rw [he]
      simp only
      rw [if_pos hle]
  refine ⟨hid, ?_⟩
  rw [hid]
  simp [hid]

/-- Witness for claim C7 on `memref<10xi32>` with addressable width 8. -/
theorem claim7_witness :
    convertMemRefType 8 ⟨.int 32 .signless, [IV.v 10], .identity, 0⟩ =
      some ⟨.int 32 .signless, [IV.v 10], .identity, 0⟩ ∧
    (convertMemRefType 8 ⟨.int 32 .signless, [IV.v 10], .identity, 0⟩).bind
        (convertMemRefType 8) =
      convertMemRefType 8 ⟨.int 32 .signless, [IV.v 10], .identity, 0⟩ :=
  claim7_wide_passthrough 8 ⟨.int 32 .signless, [IV.v 10], .identity, 0⟩
    (Or.inr ⟨32, .signless, rfl, by decide⟩)

/-- Claim C6: for a narrow-element buffer type with acceptable strides, a
dynamic layout offset is kept as a dynamic offset with stride 1; a static
nonzero offset `o` converts if and only if `(o * width) mod addressableWidth`
is zero, with new offset `(o * width) / addressableWidth` (C-truncated
`int64_t` arithmetic) and stride 1, and is rejected (no conversion)
otherwise; a static offset 0 yields a type with no layout annotation. -/
theorem claim6_layout_offset (lsw w : Nat) (sgn : Signedness) (ty : MemRefTy)
    (strides : List IV) (offset : IV) (helem : ty.elem = .int w sgn)
    (hw : w < lsw) (hgso : getStridesAndOffset ty = some (strides, offset))
    (hstr : lastStrideUnit strides = true) :
    (offset = IV.dyn → ∃ nt, convertMemRefType lsw ty = some nt ∧
      nt.layout = .strided IV.dyn [IV.v 1]) ∧
    (∀ o : Int, offset = IV.v o → o ≠ 0 →
      (((o * (w : Int)).tmod (lsw : Int) = 0 →
        ∃ nt, convertMemRefType lsw ty = some nt ∧
          nt.layout = .strided (IV.v ((o * (w : Int)).tdiv (lsw : Int))) [IV.v 1]) ∧
      ((o * (w : Int)).tmod (lsw : Int) ≠ 0 →
        convertMemRefType lsw ty = none))) ∧
    (offset = IV.v 0 → ∃ nt, convertMemRefType lsw ty = some nt ∧
      nt.layout = .identity) := by
  unfold convertMemRefType
  rw [helem]
  simp only
  rw [if_neg (by omega : ¬ lsw ≤ w), hgso]
  simp only
  rw [if_neg (by simp [hstr])]
  refine ⟨?_, ?_, ?_⟩
  · rintro rfl
    exact ⟨_, rfl, rfl⟩
  · rintro o rfl ho
    constructor
    · intro hmod
      simp only
      rw [if_neg ho, if_neg (by simp [hmod])]
      exact ⟨_, rfl, rfl⟩
    · intro hmod
      simp only
      rw [if_neg ho, if_pos hmod]
  · rintro rfl
    exact ⟨_, if_pos rfl, rfl⟩

/-- Witness for claim C6 on `memref<10xi4, strided<[1], offset: 4>>` with
addressable width 8: offset 4 scales to `(4 * 4) / 8 = 2`. -/
theorem claim6_witness :
    (IV.v 4 = IV.dyn → ∃ nt, convertMemRefType 8
        ⟨.int 4 .signless, [IV.v 10], .strided (IV.v 4) [IV.v 1], 2⟩ = some nt ∧
      nt.layout = .strided IV.dyn [IV.v 1]) ∧
    (∀ o : Int, IV.v 4 = IV.v o → o ≠ 0 →
      (((o * (4 : Int)).tmod (8 : Int) = 0 →
        ∃ nt, convertMemRefType 8
            ⟨.int 4 .signless, [IV.v 10], .strided (IV.v 4) [IV.v 1], 2⟩ = some nt ∧
          nt.layout = .strided (IV.v ((o * (4 : Int)).tdiv (8 : Int))) [IV.v 1]) ∧
      ((o * (4 : Int)).tmod (8 : Int) ≠ 0 →
        convertMemRefType 8
            ⟨.int 4 .signless, [IV.v 10], .strided (IV.v 4) [IV.v 1], 2⟩ = none))) ∧
    (IV.v 4 = IV.v 0 → ∃ nt, convertMemRefType 8
        ⟨.int 4 .signless, [IV.v 10], .strided (IV.v 4) [IV.v 1], 2⟩ = some nt ∧
      nt.layout = .identity) :=
  claim6_layout_offset 8 4 .signless
    ⟨.int 4 .signless, [IV.v 10], .strided (IV.v 4) [IV.v 1], 2⟩
    [IV.v 1] (IV.v 4) rfl (by decide) rfl (by decide)

/-- Claim C8, counterexample: a subview whose first static stride is 2 but
whose result type has rank 2 is rejected with the rank diagnostic, not with
a diagnostic naming the unmet stride constraint. -/
theorem claim8_counterexample :
    convertMemRefSubview 8
        ⟨⟨.int 4 .signless, [IV.v 2, IV.v 3], .identity, 0⟩,
          [IV.v 0, IV.v 0], [IV.v 2, IV.v 3], [IV.v 2, IV.v 2]⟩ =
      .failure "subview with rank > 1 is not supported" ∧
    SubViewOp.staticStride0
        ⟨⟨.int 4 .signless, [IV.v 2, IV.v 3], .identity, 0⟩,
          [IV.v 0, IV.v 0], [IV.v 2, IV.v 3], [IV.v 2, IV.v 2]⟩ = IV.v 2 ∧
    ("subview with rank > 1 is not supported" ≠
      "subview with stride != 1 is not supported") := by
  decide

/-- Claim C8, amended: a subview whose first static stride is not 1 is never
rewritten successfully (every outcome is a match failure, emitting no
instructions and leaving the operation unmodified), and when the earlier
checks pass (the result type converts, the widths divide, and the result
rank is 1) the diagnostic is exactly the one naming the unmet stride
constraint. -/
theorem convertMemRefSubview_success_stride (lsw : Nat) (op : SubViewOp)
    (r : SubViewRepl) (h : convertMemRefSubview lsw op = .success r) :
    op.staticStride0 = IV.v 1 := by
  unfold convertMemRefSubview at h
  simp only at h
  repeat' split at h
  all_goals simp_all

theorem claim8_stride_reject (lsw : Nat) (op : SubViewOp)
    (hstride : op.staticStride0 ≠ IV.v 1) :
    (∀ r, convertMemRefSubview lsw op ≠ .success r) ∧
    (∀ nt, convertMemRefType lsw op.resultType = some nt →
      elemWidth nt.elem % elemWidth op.resultType.elem = 0 →
      op.resultType.shape.length = 1 →
      convertMemRefSubview lsw op =
        .failure "subview with stride != 1 is not supported") := by
  constructor
  · intro r hsucc
    exact hstride (convertMemRefSubview_success_stride lsw op r hsucc)
  · intro nt hc h1 h2
    unfold convertMemRefSubview
    rw [hc]
    simp only
    rw [if_neg (by simp [h1]), if_neg (by simp [h2]), if_pos hstride]

/-- Witness for the amended claim C8: a rank-1 `memref<4xi4>` subview with
static stride 2 is rejected with the stride diagnostic. -/
theorem claim8_witness :
    (∀ r, convertMemRefSubview 8
        ⟨⟨.int 4 .signless, [IV.v 4], .identity, 0⟩,
          [IV.v 0], [IV.v 4], [IV.v 2]⟩ ≠ .success r) ∧
    (∀ nt, convertMemRefType 8
          (MemRefTy.mk (.int 4 .signless) [IV.v 4] .identity 0) = some nt →
      elemWidth nt.elem %
          elemWidth (MemRefTy.mk (.int 4 .signless) [IV.v 4] .identity 0).elem = 0 →
      (MemRefTy.mk (.int 4 .signless) [IV.v 4] .identity 0).shape.length = 1 →
      convertMemRefSubview 8
          ⟨⟨.int 4 .signless, [IV.v 4], .identity, 0⟩,
            [IV.v 0], [IV.v 4], [IV.v 2]⟩ =
        .failure "subview with stride != 1 is not supported") :=
  claim8_stride_reject 8
    ⟨⟨.int 4 .signless, [IV.v 4], .identity, 0⟩, [IV.v 0], [IV.v 4], [IV.v 2]⟩
    (by decide)

end EmulateNarrowType
